import Mathlib

/-!
Shallow embedding of the cloud-init serial-console transcript parser
(`parseCloudInitLog/parse.go`) and proofs about the claims of its design
specification.  Go strings are modelled as lists of characters, the
`bufio.Scanner` line splitting (including its 64 KiB token limit) is made
explicit, and each regular expression of the source is embedded as a
deterministic matcher: every repeated character class in those patterns is
disjoint from the pattern that follows it, so greedy matching coincides with
maximal munch and the matchers below compute exactly the leftmost match the
Go regexp engine returns.
-/

set_option maxRecDepth 8000

namespace DttParse

/-- A scanned line (a Go string), as a list of characters. -/
abbrev Line := List Char

/-- Characters of a Lean string literal, used to write the Go string constants. -/
def str (s : String) : Line := s.data

/-- Whitespace class of the Go regexp engine (RE2): the set matched by
a backslash-s item, namely tab, newline, form feed, carriage return, space. -/
def reSpace (c : Char) : Bool :=
  c = ' ' || c = '\t' || c = '\n' || c = '\x0c' || c = '\r'

/-- Go `unicode.IsSpace`: the Unicode White_Space property. -/
def uniSpace (c : Char) : Bool :=
  (0x9 ≤ c.toNat && c.toNat ≤ 0xD) || c.toNat = 0x20 || c.toNat = 0x85 ||
  c.toNat = 0xA0 || c.toNat = 0x1680 || (0x2000 ≤ c.toNat && c.toNat ≤ 0x200A) ||
  c.toNat = 0x2028 || c.toNat = 0x2029 || c.toNat = 0x202F || c.toNat = 0x205F ||
  c.toNat = 0x3000

/-- Go `strings.TrimSpace`. -/
def trimSpace (l : Line) : Line :=
  ((l.dropWhile uniSpace).reverse.dropWhile uniSpace).reverse

/-- Go `strings.HasPrefix` on lines. -/
def hasPref (p l : Line) : Bool := p.isPrefixOf l

/-- Go `strings.Contains` on lines. -/
def containsSub (needle : Line) : Line → Bool
  | [] => needle.isPrefixOf []
  | l@(_ :: t) => needle.isPrefixOf l || containsSub needle t

/-- Digit class of the patterns (backslash-d). -/
def isDigit (c : Char) : Bool := '0' ≤ c && c ≤ '9'

/-- The class `[A-Za-z0-9+/]` of the fingerprint pattern. -/
def isB64 (c : Char) : Bool :=
  isDigit c || ('a' ≤ c && c ≤ 'z') || ('A' ≤ c && c ≤ 'Z') || c = '+' || c = '/'

/-- Word class of the patterns (backslash-w): `[0-9A-Za-z_]`. -/
def isWord (c : Char) : Bool :=
  isDigit c || ('a' ≤ c && c ≤ 'z') || ('A' ≤ c && c ≤ 'Z') || c = '_'

/-- The class `[0-9a-f:]` of the IPv6 pattern. -/
def isHexColon (c : Char) : Bool := isDigit c || ('a' ≤ c && c ≤ 'f') || c = ':'

/-- Complement of the regexp whitespace class (backslash-S). -/
def notSpace (c : Char) : Bool := !reSpace c

/-- Consume a literal token of a pattern. -/
def lit (w l : Line) : Option Line :=
  if w.isPrefixOf l then some (l.drop w.length) else none

/-- Consume a nonempty maximal run of characters of class `p`: the embedding of
a greedy `X+` whose following pattern item is disjoint from the class `X`. -/
def munch1 (p : Char → Bool) (l : Line) : Option (Line × Line) :=
  let t := l.takeWhile p
  if t.isEmpty then none else some (t, l.dropWhile p)

/-- Leftmost search of an unanchored pattern: try the matcher at every start
position, from the left. -/
def findAcross {α : Type} (f : Line → Option α) : Line → Option α
  | [] => f []
  | l@(_ :: t) =>
    match f l with
    | some a => some a
    | none => findAcross f t

/-- Rightmost search: the embedding of a greedy `.*` in front of a trailing
pattern, which matches at the last feasible position. -/
def findRightmost {α : Type} (f : Line → Option α) : Line → Option α
  | [] => f []
  | l@(_ :: t) =>
    match findRightmost f t with
    | some a => some a
    | none => f l

/-- The pattern `(\S+)\s+login:\s*$` of `hostnameRegex`, returning the capture
of the leftmost match.  Being anchored at end of line, a match puts the literal
`login:` at the unique position followed only by whitespace, so the matcher
works from the right end of the line. -/
def hostnameMatch (l : Line) : Option Line :=
  let r := l.reverse
  let r1 := r.dropWhile reSpace
  if (str "login:").reverse.isPrefixOf r1 then
    let r2 := r1.drop 6
    let gap := r2.takeWhile reSpace
    if gap.isEmpty then none
    else
      let tok := (r2.dropWhile reSpace).takeWhile notSpace
      if tok.isEmpty then none else some tok.reverse
  else none

/-- One `|  word  ` column of the address table prelude. -/
def tableCol (w : Line) (l : Line) : Option Line := do
  let r ← lit (str "|") l
  let (_, r) ← munch1 reSpace r
  let r ← lit w r
  let (_, r) ← munch1 reSpace r
  pure r

/-- The shared `|  eth0  |  True  |  ` prelude of both address patterns. -/
def tablePreAt (l : Line) : Option Line := do
  let r ← tableCol (str "eth0") l
  let r ← tableCol (str "True") r
  let r ← lit (str "|") r
  let (_, r) ← munch1 reSpace r
  pure r

/-- A literal dot followed by a digit run. -/
def dotDigits (l : Line) : Option (Line × Line) := do
  let r ← lit (str ".") l
  munch1 isDigit r

/-- The dotted-quad address of the IPv4 pattern. -/
def dotQuadAt (l : Line) : Option (Line × Line) := do
  let (d1, r) ← munch1 isDigit l
  let (d2, r) ← dotDigits r
  let (d3, r) ← dotDigits r
  let (d4, r) ← dotDigits r
  pure (d1 ++ str "." ++ d2 ++ str "." ++ d3 ++ str "." ++ d4, r)

/-- Anchored step of `ipv4Regex`. -/
def ipv4At (l : Line) : Option Line := do
  let r ← tablePreAt l
  let (ip, r) ← dotQuadAt r
  let (_, r) ← munch1 reSpace r
  let _ ← lit (str "|") r
  pure ip

/-- Go `ipv4Regex.FindStringSubmatch`, first capture. -/
def ipv4Match (l : Line) : Option Line := findAcross ipv4At l

/-- Anchored step of `ipv6Regex`. -/
def ipv6At (l : Line) : Option Line := do
  let r ← tablePreAt l
  let (h, r) ← munch1 isHexColon r
  let r ← lit (str "/") r
  let (d, r) ← munch1 isDigit r
  let (_, r) ← munch1 reSpace r
  let _ ← lit (str "|") r
  pure (h ++ str "/" ++ d)

/-- Go `ipv6Regex.FindStringSubmatch`, first capture. -/
def ipv6Match (l : Line) : Option Line := findAcross ipv6At l

/-- The `SHA256:` fingerprint token of the hash pattern, with the whitespace
after it. -/
def hashFpAt (l : Line) : Option (Line × Line) := do
  let r ← lit (str "SHA256:") l
  let (fp, r) ← munch1 isB64 r
  let (_, r) ← munch1 reSpace r
  pure (str "SHA256:" ++ fp, r)

/-- The `root@<hostname> (<keytype>)` tail of the hash pattern. -/
def hashHostAt (l : Line) : Option (Line × Line) := do
  let r ← lit (str "root@") l
  let (hn, r) ← munch1 notSpace r
  let (_, r) ← munch1 reSpace r
  let r ← lit (str "(") r
  let (kt, r) ← munch1 isWord r
  let _ ← lit (str ")") r
  pure (hn, kt)

/-- Anchored step of `hashRegex`, returning the four captures:
bit length, fingerprint (with its `SHA256:` prefix), hostname, key type. -/
def hashAt (l : Line) : Option (Line × Line × Line × Line) := do
  let (b, r) ← munch1 isDigit l
  let (_, r) ← munch1 reSpace r
  let (fp, r) ← hashFpAt r
  let (hn, kt) ← hashHostAt r
  pure (b, fp, hn, kt)

/-- Go `hashRegex.FindStringSubmatch`, captures 1 to 4. -/
def hashMatch (l : Line) : Option (Line × Line × Line × Line) := findAcross hashAt l

/-- The key type alternation `(ssh-\S+|ecdsa-\S+)` at line start. -/
def keyTokenAt (l : Line) : Option (Line × Line) :=
  match lit (str "ssh-") l with
  | some r => (munch1 notSpace r).map (fun p => (str "ssh-" ++ p.1, p.2))
  | none =>
    match lit (str "ecdsa-") l with
    | some r => (munch1 notSpace r).map (fun p => (str "ecdsa-" ++ p.1, p.2))
    | none => none

/-- Go `sshKeyRegex.FindStringSubmatch`: the start-anchored pattern matching a
key type token, a blob token and `root@` followed by the hostname; returns the
key-type and hostname captures. -/
def sshKeyMatch (l : Line) : Option (Line × Line) := do
  let (kt, r) ← keyTokenAt l
  let (_, r) ← munch1 reSpace r
  let (_, r) ← munch1 notSpace r
  let (_, r) ← munch1 reSpace r
  let r ← lit (str "root@") r
  let (hn, _) ← munch1 notSpace r
  pure (kt, hn)

/-- Trailing part of `authKeyUser` after the greedy dot-star: the literal
`for user `, then a nonempty run of characters that are neither `+` nor
whitespace, then a literal `+`. -/
def forUserAt (l : Line) : Option Line := do
  let r ← lit (str "for user ") l
  let (u, r) ← munch1 (fun c => !(c = '+') && !reSpace c) r
  let _ ← lit (str "+") r
  pure u

/-- Go `authKeyUser.FindStringSubmatch`, first capture. -/
def authKeyUserMatch (l : Line) : Option Line := do
  let r ← lit (str "ci-info:") l
  let (_, r) ← munch1 reSpace r
  let r ← lit (str "+") r
  findRightmost forUserAt r

/-- One table cell of `authKeyRow`: a nonempty run of non-bar characters
followed by the closing bar; the lazy capture inside the surrounding greedy
whitespace items yields the cell stripped of leading and trailing regexp
whitespace, except that a cell of only whitespace captures its last
character. -/
def cellAt (l : Line) : Option (Line × Line) :=
  let c := l.takeWhile (fun x => !(x = '|'))
  let rest := l.dropWhile (fun x => !(x = '|'))
  if c.isEmpty then none
  else
    match lit (str "|") rest with
    | none => none
    | some r =>
      let t := ((c.dropWhile reSpace).reverse.dropWhile reSpace).reverse
      if t.isEmpty then
        match c.getLast? with
        | none => none
        | some x => some ([x], r)
      else some (t, r)

/-- Two consecutive table cells. -/
def twoCells (l : Line) : Option (Line × Line × Line) := do
  let (a, r) ← cellAt l
  let (b, r) ← cellAt r
  pure (a, b, r)

/-- Go `authKeyRow.FindStringSubmatch`, captures 1 to 4. -/
def authKeyRowMatch (l : Line) : Option (Line × Line × Line × Line) := do
  let r ← lit (str "ci-info:") l
  let (_, r) ← munch1 reSpace r
  let r ← lit (str "|") r
  let (c1, c2, r) ← twoCells r
  let (c3, c4, _) ← twoCells r
  pure (c1, c2, c3, c4)

/-- The literal BEGIN marker of the host key block. -/
def beginMarker : Line := str "-----BEGIN SSH HOST KEY KEYS-----"

/-- The literal END marker of the host key block. -/
def endMarker : Line := str "-----END SSH HOST KEY KEYS-----"

/-- An SSH host key fingerprint, as in the source. -/
structure HostKeyHash where
  KeyType : Line
  Fingerprint : Line
  Hostname : Line
  Algorithm : Line
deriving DecidableEq

/-- Authorized key metadata of one user, as in the source. -/
structure SSHKeyData where
  Keytype : Line
  FingerPrint : Line
  Options : Line
  Comment : Line
deriving DecidableEq

/-- The parsed cloud-init information; the Go map is modelled by its lookup
function. -/
structure CloudInitData where
  Hostname : Line
  IPs : List Line
  HostKeyHashes : List HostKeyHash
  HostKeys : List Line
  sshKeyMap : Line → Option SSHKeyData

/-- The fresh result value built at the top of `ParseCloudInit`. -/
def initData : CloudInitData := ⟨[], [], [], [], fun _ => none⟩

/-- The scan state threaded through the loop: the accumulating result and the
two carry-over variables `inHostKeys` and `currentAuthUser`. -/
structure ParseState where
  data : CloudInitData
  inHostKeys : Bool
  currentAuthUser : Line

/-- The state at loop entry. -/
def initState : ParseState := ⟨initData, false, []⟩

/-- The `contains` helper of the source. -/
def contains (slice : List Line) (item : Line) : Bool :=
  slice.any (fun s => s == item)

/-- Hostname extraction from a login prompt (guarded by the hostname still
being empty). -/
def hostnameStep (line : Line) (d : CloudInitData) : CloudInitData :=
  if d.Hostname.isEmpty then
    match hostnameMatch line with
    | some h => { d with Hostname := h }
    | none => d
  else d

/-- Address accumulation: append the capture when not already present. -/
def ipStep (m : Option Line) (d : CloudInitData) : CloudInitData :=
  match m with
  | some ip => if contains d.IPs ip then d else { d with IPs := d.IPs ++ [ip] }
  | none => d

/-- Host key fingerprint accumulation. -/
def hashStep (line : Line) (d : CloudInitData) : CloudInitData :=
  match hashMatch line with
  | some (b, fp, hn, kt) =>
    { d with HostKeyHashes := d.HostKeyHashes ++ [⟨kt, fp, hn, b ++ str " bits"⟩] }
  | none => d

/-- Body of the host key block: store the trimmed key line and, when the
hostname is still unset, try to recover it from the key line. -/
def hostKeyStep (line : Line) (d : CloudInitData) : CloudInitData :=
  let trimmed := trimSpace line
  if hasPref (str "ssh-") trimmed || hasPref (str "ecdsa-") trimmed then
    let d1 := { d with HostKeys := d.HostKeys ++ [trimmed] }
    if d1.Hostname.isEmpty then
      match sshKeyMatch trimmed with
      | some (_, hn) => { d1 with Hostname := hn }
      | none => d1
    else d1
  else d

/-- Overwriting insertion into the modelled Go map. -/
def updateMap (m : Line → Option SSHKeyData) (k : Line) (v : SSHKeyData) :
    Line → Option SSHKeyData :=
  fun x => if x = k then some v else m x

/-- Authorized-key section of the loop: the user marker arms
`currentAuthUser`; with a user armed, border lines are skipped and a table row
whose key type column carries an `ssh-` or `ecdsa-` prefix commits the entry
and disarms the user. -/
def authStep (line : Line) (s : ParseState) : ParseState :=
  match authKeyUserMatch line with
  | some u => { s with currentAuthUser := u }
  | none =>
    if s.currentAuthUser.isEmpty then s
    else if hasPref (str "ci-info: +") line then s
    else
      match authKeyRowMatch line with
      | some (c1, c2, c3, c4) =>
        let keytype := trimSpace c1
        if hasPref (str "ssh-") keytype || hasPref (str "ecdsa-") keytype then
          let options0 := trimSpace c3
          let options := if options0 = str "-" then [] else options0
          { s with
            data := { s.data with
              sshKeyMap := updateMap s.data.sshKeyMap s.currentAuthUser
                ⟨keytype, trimSpace c2, options, trimSpace c4⟩ },
            currentAuthUser := [] }
        else s
      | none => s

/-- One iteration of the scan loop of `ParseCloudInit`: the four unconditional
extractions, then the block delimiters (which skip the rest of the iteration),
the block body and the authorized-key section. -/
def processLine (s : ParseState) (line : Line) : ParseState :=
  let d := hashStep line (ipStep (ipv6Match line) (ipStep (ipv4Match line)
    (hostnameStep line s.data)))
  if containsSub beginMarker line then { s with data := d, inHostKeys := true }
  else if containsSub endMarker line then { s with data := d, inHostKeys := false }
  else
    let d1 := if s.inHostKeys then hostKeyStep line d else d
    authStep line { s with data := d1 }

/-- The scan loop over a sequence of delivered lines. -/
def processLines (s : ParseState) (lines : List Line) : ParseState :=
  lines.foldl processLine s

/-- Prepend a character to the first segment. -/
def consHead (c : Char) : List (List Char) → List (List Char)
  | [] => [[c]]
  | s :: rest => (c :: s) :: rest

/-- Split the input on newline characters; the final segment is the text after
the last newline. -/
def splitSegs : List Char → List (List Char)
  | [] => [[]]
  | c :: t => if c = '\n' then [] :: splitSegs t else consHead c (splitSegs t)

/-- Discard the final segment when it is empty: `bufio.ScanLines` emits no
token for the text after a trailing newline. -/
def dropFinalEmpty (segs : List (List Char)) : List (List Char) :=
  match segs.getLast? with
  | some [] => segs.dropLast
  | _ => segs

/-- Drop a trailing carriage return, as `bufio.ScanLines` does. -/
def dropCR (l : List Char) : List Char :=
  match l.getLast? with
  | some c => if c = '\r' then l.dropLast else l
  | none => l

/-- The default token limit of `bufio.Scanner` (`bufio.MaxScanTokenSize`). -/
def maxScanTokenSize : Nat := 65536

/-- The sequence of lines the scanner delivers: the newline-separated
segments, without a final empty one, truncated at the first segment the
scanner's buffer cannot hold (at which point `Scan` reports `ErrTooLong` and
the loop ends), each delivered token stripped of a trailing carriage
return. -/
def goLines (content : List Char) : List Line :=
  ((dropFinalEmpty (splitSegs content)).takeWhile
    (fun s => s.length < maxScanTokenSize)).map dropCR

/-- The parser `ParseCloudInit`: scan the delivered lines from the fresh
state and return the accumulated data. -/
def ParseCloudInit (content : List Char) : CloudInitData :=
  (processLines initState (goLines content)).data

/-- The fingerprint record built from the four captures of `hashRegex`. -/
def mkHash : Line × Line × Line × Line → HostKeyHash
  | (b, fp, hn, kt) => ⟨kt, fp, hn, b ++ str " bits"⟩

/-- The insertion step of the address list, as performed by the loop body. -/
def insertIfAbsent (acc : List Line) (x : Line) : List Line :=
  if contains acc x then acc else acc ++ [x]

/-- The stream of address captures of a line sequence, in scan order. -/
def ipStream (lines : List Line) : List Line :=
  lines.flatMap (fun l => (ipv4Match l).toList ++ (ipv6Match l).toList)

/-- Modelled from the spec's words: an ordered sequence whose insertion order
is the order of first appearance, with no duplicates under exact string
equality. -/
def specFirstDedup (xs : List Line) : List Line :=
  xs.foldl insertIfAbsent []

/-- Modelled from the spec's words (host key block delimiters and body): a
line containing the BEGIN marker opens the block and is discarded, a line
containing the END marker closes it and is discarded, and while inside the
block a line whose trimmed content starts with `ssh-` or `ecdsa-` is kept,
trimmed, in order. -/
def specHostKeys : Bool → List Line → List Line
  | _, [] => []
  | inBlock, l :: t =>
    if containsSub beginMarker l then specHostKeys true t
    else if containsSub endMarker l then specHostKeys false t
    else if inBlock &&
        (hasPref (str "ssh-") (trimSpace l) || hasPref (str "ecdsa-") (trimSpace l))
      then trimSpace l :: specHostKeys inBlock t
    else specHostKeys inBlock t

/-- A line of 65536 identical bytes: one byte beyond what the scanner's
buffer can hold. -/
def bigLine : Line := List.replicate 65536 'A'

/-- A transcript whose first line overflows the scanner buffer, followed by a
well-formed login-prompt line. -/
def cBig : Line := bigLine ++ '\n' :: str "myhost login:"

/-- A transcript with authorized-key tables for two users and a repeated
marker for the first user. -/
def multiUserTranscript : Line := str "ci-info: ++++keys for user alice++++\nci-info: | ssh-rsa | SHA256:aaa | - | alice@k1 |\nci-info: ++++keys for user bob++++\nci-info: | ecdsa-sha2 | SHA256:bbb | opt | bob@k |\nci-info: ++++keys for user alice++++\nci-info: | ssh-ed25519 | SHA256:ccc | - | alice@k2 |"

/-! ### Frame lemmas for the stages of the loop body -/

theorem hostnameStep_IPs (line : Line) (d : CloudInitData) :
    (hostnameStep line d).IPs = d.IPs := by
  unfold hostnameStep
  split <;> [skip; rfl]
  split <;> rfl

theorem hostnameStep_HostKeyHashes (line : Line) (d : CloudInitData) :
    (hostnameStep line d).HostKeyHashes = d.HostKeyHashes := by
  unfold hostnameStep
  split <;> [skip; rfl]
  split <;> rfl

theorem hostnameStep_HostKeys (line : Line) (d : CloudInitData) :
    (hostnameStep line d).HostKeys = d.HostKeys := by
  unfold hostnameStep
  split <;> [skip; rfl]
  split <;> rfl

theorem hostnameStep_sshKeyMap (line : Line) (d : CloudInitData) :
    (hostnameStep line d).sshKeyMap = d.sshKeyMap := by
  unfold hostnameStep
  split <;> [skip; rfl]
  split <;> rfl

theorem ipStep_Hostname (m : Option Line) (d : CloudInitData) :
    (ipStep m d).Hostname = d.Hostname := by
  unfold ipStep
  split <;> [split <;> rfl; rfl]

theorem ipStep_HostKeyHashes (m : Option Line) (d : CloudInitData) :
    (ipStep m d).HostKeyHashes = d.HostKeyHashes := by
  unfold ipStep
  split <;> [split <;> rfl; rfl]

theorem ipStep_HostKeys (m : Option Line) (d : CloudInitData) :
    (ipStep m d).HostKeys = d.HostKeys := by
  unfold ipStep
  split <;> [split <;> rfl; rfl]

theorem ipStep_sshKeyMap (m : Option Line) (d : CloudInitData) :
    (ipStep m d).sshKeyMap = d.sshKeyMap := by
  unfold ipStep
  split <;> [split <;> rfl; rfl]

theorem hashStep_Hostname (line : Line) (d : CloudInitData) :
    (hashStep line d).Hostname = d.Hostname := by
  unfold hashStep
  split <;> rfl

theorem hashStep_IPs (line : Line) (d : CloudInitData) :
    (hashStep line d).IPs = d.IPs := by
  unfold hashStep
  split <;> rfl

theorem hashStep_HostKeys (line : Line) (d : CloudInitData) :
    (hashStep line d).HostKeys = d.HostKeys := by
  unfold hashStep
  split <;> rfl

theorem hashStep_sshKeyMap (line : Line) (d : CloudInitData) :
    (hashStep line d).sshKeyMap = d.sshKeyMap := by
  unfold hashStep
  split <;> rfl

theorem hashStep_HostKeyHashes (line : Line) (d : CloudInitData) :
    (hashStep line d).HostKeyHashes =
      d.HostKeyHashes ++ ((hashMatch line).map mkHash).toList := by
  unfold hashStep
  split
  case _ b fp hn kt heq => simp [heq, mkHash]
  case _ heq => simp [heq]

theorem hostKeyStep_IPs (line : Line) (d : CloudInitData) :
    (hostKeyStep line d).IPs = d.IPs := by
  unfold hostKeyStep
  dsimp only
  split <;> [skip; rfl]
  split <;> [skip; rfl]
  split <;> rfl

theorem hostKeyStep_HostKeyHashes (line : Line) (d : CloudInitData) :
    (hostKeyStep line d).HostKeyHashes = d.HostKeyHashes := by
  unfold hostKeyStep
  dsimp only
  split <;> [skip; rfl]
  split <;> [skip; rfl]
  split <;> rfl

theorem hostKeyStep_sshKeyMap (line : Line) (d : CloudInitData) :
    (hostKeyStep line d).sshKeyMap = d.sshKeyMap := by
  unfold hostKeyStep
  dsimp only
  split <;> [skip; rfl]
  split <;> [skip; rfl]
  split <;> rfl

theorem authStep_Hostname (line : Line) (s : ParseState) :
    (authStep line s).data.Hostname = s.data.Hostname := by
  unfold authStep
  split <;> [rfl; skip]
  split <;> [rfl; skip]
  split <;> [rfl; skip]
  split <;> [skip; rfl]
  dsimp only
  split <;> rfl

theorem authStep_IPs (line : Line) (s : ParseState) :
    (authStep line s).data.IPs = s.data.IPs := by
  unfold authStep
  split <;> [rfl; skip]
  split <;> [rfl; skip]
  split <;> [rfl; skip]
  split <;> [skip; rfl]
  dsimp only
  split <;> rfl

theorem authStep_HostKeyHashes (line : Line) (s : ParseState) :
    (authStep line s).data.HostKeyHashes = s.data.HostKeyHashes := by
  unfold authStep
  split <;> [rfl; skip]
  split <;> [rfl; skip]
  split <;> [rfl; skip]
  split <;> [skip; rfl]
  dsimp only
  split <;> rfl

theorem authStep_HostKeys (line : Line) (s : ParseState) :
    (authStep line s).data.HostKeys = s.data.HostKeys := by
  unfold authStep
  split <;> [rfl; skip]
  split <;> [rfl; skip]
  split <;> [rfl; skip]
  split <;> [skip; rfl]
  dsimp only
  split <;> rfl

theorem authStep_inHostKeys (line : Line) (s : ParseState) :
    (authStep line s).inHostKeys = s.inHostKeys := by
  unfold authStep
  split <;> [rfl; skip]
  split <;> [rfl; skip]
  split <;> [rfl; skip]
  split <;> [skip; rfl]
  dsimp only
  split <;> rfl

/-! ### The loop over line sequences -/

theorem processLines_nil (s : ParseState) : processLines s [] = s := rfl

theorem processLines_cons (s : ParseState) (l : Line) (t : List Line) :
    processLines s (l :: t) = processLines (processLine s l) t := rfl

theorem isEmpty_iff_nil {l : Line} : l.isEmpty = true ↔ l = [] := by
  cases l <;> simp

/-- A set hostname is never modified by a stage. -/
theorem hostnameStep_of_ne (line : Line) (d : CloudInitData) (h : d.Hostname ≠ []) :
    hostnameStep line d = d := by
  unfold hostnameStep
  rw [if_neg]
  simpa [isEmpty_iff_nil] using h

theorem hostKeyStep_Hostname_ne (line : Line) (d : CloudInitData) (h : d.Hostname ≠ []) :
    (hostKeyStep line d).Hostname = d.Hostname := by
  unfold hostKeyStep
  dsimp only
  split
  · rw [if_neg (by simpa [isEmpty_iff_nil] using h)]
  · rfl

/-- Per-line form of the first-match-wins rule: a nonempty hostname survives
the whole loop body. -/
theorem processLine_Hostname_ne (s : ParseState) (line : Line)
    (h : s.data.Hostname ≠ []) :
    (processLine s line).data.Hostname = s.data.Hostname := by
  unfold processLine
  dsimp only
  rw [hostnameStep_of_ne line s.data h]
  split
  · rw [hashStep_Hostname, ipStep_Hostname, ipStep_Hostname]
  split
  · rw [hashStep_Hostname, ipStep_Hostname, ipStep_Hostname]
  · rw [authStep_Hostname]
    dsimp only
    split
    · rw [hostKeyStep_Hostname_ne, hashStep_Hostname, ipStep_Hostname, ipStep_Hostname]
      rw [hashStep_Hostname, ipStep_Hostname, ipStep_Hostname]
      exact h
    · rw [hashStep_Hostname, ipStep_Hostname, ipStep_Hostname]

theorem processLines_Hostname_ne (lines : List Line) : ∀ s : ParseState,
    s.data.Hostname ≠ [] →
    (processLines s lines).data.Hostname = s.data.Hostname := by
  induction lines with
  | nil => intro s _; rfl
  | cons l t ih =>
    intro s h
    rw [processLines_cons, ih _ (by rw [processLine_Hostname_ne s l h]; exact h),
      processLine_Hostname_ne s l h]

/-- Per-line accumulation of fingerprint entries. -/
theorem processLine_HostKeyHashes (s : ParseState) (line : Line) :
    (processLine s line).data.HostKeyHashes =
      s.data.HostKeyHashes ++ ((hashMatch line).map mkHash).toList := by
  unfold processLine
  dsimp only
  split
  · rw [hashStep_HostKeyHashes, ipStep_HostKeyHashes, ipStep_HostKeyHashes,
      hostnameStep_HostKeyHashes]
  split
  · rw [hashStep_HostKeyHashes, ipStep_HostKeyHashes, ipStep_HostKeyHashes,
      hostnameStep_HostKeyHashes]
  · rw [authStep_HostKeyHashes]
    dsimp only
    split
    · rw [hostKeyStep_HostKeyHashes, hashStep_HostKeyHashes, ipStep_HostKeyHashes,
        ipStep_HostKeyHashes, hostnameStep_HostKeyHashes]
    · rw [hashStep_HostKeyHashes, ipStep_HostKeyHashes, ipStep_HostKeyHashes,
        hostnameStep_HostKeyHashes]

/-- The fingerprint list of the result is exactly the stream of per-line
matches of the hash pattern: every match appends one entry, no other line
contributes. -/
theorem processLines_HostKeyHashes (lines : List Line) : ∀ s : ParseState,
    (processLines s lines).data.HostKeyHashes =
      s.data.HostKeyHashes ++ lines.filterMap (fun l => (hashMatch l).map mkHash) := by
  induction lines with
  | nil => intro s; simp [processLines_nil]
  | cons l t ih =>
    intro s
    rw [processLines_cons, ih, processLine_HostKeyHashes]
    cases h : hashMatch l <;> simp [List.filterMap_cons, h]

/-! ### Inversion lemmas for the matchers -/

theorem lit_some {w l r : Line} (h : lit w l = some r) : l = w ++ r := by
  unfold lit at h
  split at h
  · rename_i hp
    injection h with h'
    subst h'
    obtain ⟨t, ht⟩ := List.isPrefixOf_iff_prefix.1 hp
    subst ht
    rw [List.drop_left]
  · cases h

theorem lit_append (w r : Line) : lit w (w ++ r) = some r := by
  unfold lit
  rw [if_pos (List.isPrefixOf_iff_prefix.2 ⟨r, rfl⟩), List.drop_left]

theorem munch1_some {p : Char → Bool} {l t r : Line} (h : munch1 p l = some (t, r)) :
    t = l.takeWhile p ∧ r = l.dropWhile p ∧ t ≠ [] := by
  unfold munch1 at h
  dsimp only at h
  split at h
  · cases h
  · rename_i hne
    injection h with h'
    injection h' with h1 h2
    subst h1; subst h2
    exact ⟨rfl, rfl, by simpa [isEmpty_iff_nil] using hne⟩

theorem hasPref_append (w r : Line) : hasPref w (w ++ r) = true := by
  unfold hasPref
  exact List.isPrefixOf_iff_prefix.2 ⟨r, rfl⟩

theorem keyTokenAt_some {l kt r : Line} (h : keyTokenAt l = some (kt, r)) :
    (hasPref (str "ssh-") l || hasPref (str "ecdsa-") l) = true := by
  unfold keyTokenAt at h
  split at h
  · rename_i r0 h0
    rw [lit_some h0, hasPref_append]
    simp
  · split at h
    · rename_i r0 h0
      rw [lit_some h0, hasPref_append]
      simp
    · cases h

theorem sshKeyMatch_some_pref {t kt hn : Line} (h : sshKeyMatch t = some (kt, hn)) :
    (hasPref (str "ssh-") t || hasPref (str "ecdsa-") t) = true := by
  unfold sshKeyMatch at h
  simp only [bind, Option.bind_eq_some] at h
  obtain ⟨⟨kt0, r0⟩, h0, _⟩ := h
  exact keyTokenAt_some h0

theorem sshKeyMatch_some_ne {t kt hn : Line} (h : sshKeyMatch t = some (kt, hn)) :
    hn ≠ [] := by
  unfold sshKeyMatch at h
  simp only [bind, Option.bind_eq_some] at h
  obtain ⟨⟨kt0, r0⟩, h0, ⟨w1, r1⟩, h1, ⟨w2, r2⟩, h2, ⟨w3, r3⟩, h3, r4, h4, ⟨hn5, r5⟩, h5, h6⟩ := h
  injection h6 with h6'
  injection h6' with ha hb
  subst hb
  exact (munch1_some h5).2.2

/-- Per-line form of the hostname fallback. -/
theorem hostnameStep_none (line : Line) (d : CloudInitData)
    (h : hostnameMatch line = none) : hostnameStep line d = d := by
  unfold hostnameStep
  split
  · rw [h]
  · rfl

theorem hostKeyStep_Hostname_set (line : Line) (d : CloudInitData)
    (h : d.Hostname = []) {kt hn : Line}
    (hm : sshKeyMatch (trimSpace line) = some (kt, hn)) :
    (hostKeyStep line d).Hostname = hn := by
  unfold hostKeyStep
  dsimp only
  rw [if_pos (sshKeyMatch_some_pref hm), if_pos (by simpa [isEmpty_iff_nil] using h), hm]

/-- Per-line form of the hostname fallback inside the host key block: with the
hostname still unset, a block line matching the key pattern sets it to the
captured hostname. -/
theorem processLine_Hostname_fallback (s : ParseState) (line : Line)
    (hempty : s.data.Hostname = []) (hin : s.inHostKeys = true)
    (hb : containsSub beginMarker line = false)
    (he : containsSub endMarker line = false)
    (hno : hostnameMatch line = none) {kt hn : Line}
    (hm : sshKeyMatch (trimSpace line) = some (kt, hn)) :
    (processLine s line).data.Hostname = hn := by
  unfold processLine
  dsimp only
  split
  · rename_i hcond
    rw [hb] at hcond
    simp at hcond
  split
  · rename_i hcond
    rw [he] at hcond
    simp at hcond
  · rw [authStep_Hostname]
    dsimp only
    rw [hostKeyStep_Hostname_set _ _ (by
      rw [hashStep_Hostname, ipStep_Hostname, ipStep_Hostname,
        hostnameStep_none line s.data hno]
      exact hempty) hm]

/-! ### Address accumulation -/

theorem ipStep_eq (m : Option Line) (d : CloudInitData) :
    (ipStep m d).IPs = List.foldl insertIfAbsent d.IPs m.toList := by
  cases m with
  | none => rfl
  | some ip =>
    simp only [Option.toList_some, List.foldl_cons, List.foldl_nil]
    unfold ipStep insertIfAbsent
    dsimp only
    split <;> rfl

theorem processLine_IPs (s : ParseState) (line : Line) :
    (processLine s line).data.IPs =
      List.foldl insertIfAbsent s.data.IPs
        ((ipv4Match line).toList ++ (ipv6Match line).toList) := by
  have hcore : (ipStep (ipv6Match line) (ipStep (ipv4Match line)
      (hostnameStep line s.data))).IPs =
      List.foldl insertIfAbsent s.data.IPs
        ((ipv4Match line).toList ++ (ipv6Match line).toList) := by
    rw [List.foldl_append, ipStep_eq, ipStep_eq, hostnameStep_IPs]
  unfold processLine
  dsimp only
  split
  · rw [hashStep_IPs, hcore]
  split
  · rw [hashStep_IPs, hcore]
  · rw [authStep_IPs]
    dsimp only
    split
    · rw [hostKeyStep_IPs, hashStep_IPs, hcore]
    · rw [hashStep_IPs, hcore]

theorem processLines_IPs (lines : List Line) : ∀ s : ParseState,
    (processLines s lines).data.IPs =
      List.foldl insertIfAbsent s.data.IPs (ipStream lines) := by
  induction lines with
  | nil => intro s; rfl
  | cons l t ih =>
    intro s
    rw [processLines_cons, ih, processLine_IPs]
    unfold ipStream
    simp [List.foldl_append]

theorem contains_iff {acc : List Line} {x : Line} :
    contains acc x = true ↔ x ∈ acc := by
  unfold contains
  rw [List.any_eq_true]
  constructor
  · rintro ⟨s, hs, hb⟩
    rw [beq_iff_eq] at hb
    exact hb ▸ hs
  · intro h
    exact ⟨x, h, by simp⟩

theorem insertIfAbsent_nodup {acc : List Line} (h : acc.Nodup) (x : Line) :
    (insertIfAbsent acc x).Nodup := by
  unfold insertIfAbsent
  split
  · exact h
  · rename_i hc
    have hx : x ∉ acc := fun hmem => hc (contains_iff.2 hmem)
    simp [List.nodup_append, h, hx]

theorem foldl_insertIfAbsent_nodup (xs : List Line) :
    ∀ acc : List Line, acc.Nodup → (List.foldl insertIfAbsent acc xs).Nodup := by
  induction xs with
  | nil => intro acc h; exact h
  | cons x t ih => intro acc h; exact ih _ (insertIfAbsent_nodup h x)

/-! ### The host key block -/

theorem hostKeyStep_HostKeys (line : Line) (d : CloudInitData) :
    (hostKeyStep line d).HostKeys =
      if hasPref (str "ssh-") (trimSpace line) || hasPref (str "ecdsa-") (trimSpace line)
      then d.HostKeys ++ [trimSpace line] else d.HostKeys := by
  unfold hostKeyStep
  dsimp only
  split
  · split
    · split <;> rfl
    · rfl
  · rfl

theorem processLine_inHostKeys (s : ParseState) (line : Line) :
    (processLine s line).inHostKeys =
      (if containsSub beginMarker line then true
       else if containsSub endMarker line then false
       else s.inHostKeys) := by
  unfold processLine
  dsimp only
  split
  · rfl
  split
  · rfl
  · rw [authStep_inHostKeys]

theorem processLine_HostKeys (s : ParseState) (line : Line) :
    (processLine s line).data.HostKeys =
      (if containsSub beginMarker line || containsSub endMarker line then s.data.HostKeys
       else if s.inHostKeys &&
          (hasPref (str "ssh-") (trimSpace line) || hasPref (str "ecdsa-") (trimSpace line))
       then s.data.HostKeys ++ [trimSpace line]
       else s.data.HostKeys) := by
  unfold processLine
  dsimp only
  by_cases hb : containsSub beginMarker line = true
  · rw [if_pos hb, if_pos (show (containsSub beginMarker line ||
      containsSub endMarker line) = true by simp [hb])]
    dsimp only
    rw [hashStep_HostKeys, ipStep_HostKeys, ipStep_HostKeys, hostnameStep_HostKeys]
  · rw [if_neg hb]
    by_cases he : containsSub endMarker line = true
    · rw [if_pos he, if_pos (show (containsSub beginMarker line ||
        containsSub endMarker line) = true by simp [he])]
      dsimp only
      rw [hashStep_HostKeys, ipStep_HostKeys, ipStep_HostKeys, hostnameStep_HostKeys]
    · rw [if_neg he, if_neg (show ¬((containsSub beginMarker line ||
        containsSub endMarker line) = true) by simp [hb, he]), authStep_HostKeys]
      dsimp only
      by_cases hin : s.inHostKeys = true
      · rw [if_pos hin, hostKeyStep_HostKeys, hashStep_HostKeys, ipStep_HostKeys,
          ipStep_HostKeys, hostnameStep_HostKeys, hin, Bool.true_and]
      · have hf : s.inHostKeys = false := by
          cases h : s.inHostKeys
          · rfl
          · exact absurd h hin
        rw [if_neg hin, hashStep_HostKeys, ipStep_HostKeys, ipStep_HostKeys,
          hostnameStep_HostKeys, hf, Bool.false_and, if_neg Bool.false_ne_true]

theorem processLines_HostKeys_eq (lines : List Line) : ∀ s : ParseState,
    (processLines s lines).data.HostKeys =
      s.data.HostKeys ++ specHostKeys s.inHostKeys lines := by
  induction lines with
  | nil => intro s; simp [processLines_nil, specHostKeys]
  | cons l t ih =>
    intro s
    rw [processLines_cons, ih, processLine_HostKeys, processLine_inHostKeys]
    by_cases hb : containsSub beginMarker l = true
    · simp [specHostKeys, hb]
    · by_cases he : containsSub endMarker l = true
      · simp [specHostKeys, hb, he]
      · by_cases hk : (s.inHostKeys &&
            (hasPref (str "ssh-") (trimSpace l) ||
             hasPref (str "ecdsa-") (trimSpace l))) = true
        · simp [specHostKeys, hb, he, hk]
        · simp [specHostKeys, hb, he, hk]

/-! ### The authorized-key section -/

theorem isPrefixOf_append_same {b c : Line} : ∀ a : Line,
    (a ++ b).isPrefixOf (a ++ c) = b.isPrefixOf c := by
  intro a
  induction a with
  | nil => rfl
  | cons x t ih => simp [List.isPrefixOf, ih]

/-- A line the row pattern accepts starts with the tag, whitespace and a bar,
so the user-marker pattern (which needs a plus after the same whitespace run)
rejects it. -/
theorem authKeyRowMatch_noUser {l : Line} {r4 : Line × Line × Line × Line}
    (h : authKeyRowMatch l = some r4) : authKeyUserMatch l = none := by
  unfold authKeyRowMatch at h
  simp only [bind, Option.bind_eq_some] at h
  obtain ⟨r0, h0, ⟨ws, r1⟩, h1, r2, h2, _⟩ := h
  have hr12 : r1 = '|' :: r2 := lit_some h2
  have hplus : lit (str "+") r1 = none := by rw [hr12]; rfl
  unfold authKeyUserMatch
  simp only [bind, h0, h1, hplus, Option.some_bind, Option.none_bind]

/-- A line the row pattern accepts is not an ASCII-art border line. -/
theorem authKeyRowMatch_noBorder {l : Line} {r4 : Line × Line × Line × Line}
    (h : authKeyRowMatch l = some r4) : hasPref (str "ci-info: +") l = false := by
  unfold authKeyRowMatch at h
  simp only [bind, Option.bind_eq_some] at h
  obtain ⟨r0, h0, ⟨ws, r1⟩, h1, r2, h2, _⟩ := h
  have hl : l = str "ci-info:" ++ r0 := lit_some h0
  obtain ⟨_, hr1, _⟩ := munch1_some h1
  have hr12 : r1 = '|' :: r2 := lit_some h2
  subst hl
  cases hp : hasPref (str "ci-info: +") (str "ci-info:" ++ r0)
  · rfl
  · exfalso
    have hpp : (str " +").isPrefixOf r0 = true := by
      have hq := hp
      rw [hasPref, show (str "ci-info: +") = str "ci-info:" ++ str " +" from rfl,
        isPrefixOf_append_same] at hq
      exact hq
    obtain ⟨t, ht⟩ := List.isPrefixOf_iff_prefix.1 hpp
    have h3 : List.dropWhile reSpace r0 = '|' :: r2 := by rw [← hr1, hr12]
    rw [← ht] at h3
    have h4 : ('+' :: t : Line) = '|' :: r2 := by
      have hsp : reSpace ' ' = true := rfl
      have hpl : reSpace '+' = false := rfl
      simp only [str, List.dropWhile_cons, hsp, hpl, if_true, if_false,
        Bool.false_eq_true, String.data] at h3
      exact h3
    injection h4 with h5 _
    exact absurd h5 (by decide)

theorem updateMap_same (m : Line → Option SSHKeyData) (k : Line) (v : SSHKeyData) :
    updateMap m k v k = some v := by simp [updateMap]

theorem updateMap_other (m : Line → Option SSHKeyData) (k : Line) (v : SSHKeyData)
    (x : Line) (h : x ≠ k) : updateMap m k v x = m x := by simp [updateMap, h]

/-- The committing branch of the authorized-key section. -/
theorem authStep_commit (line : Line) (d : CloudInitData) (ihk : Bool) (u : Line)
    {c1 c2 c3 c4 : Line}
    (hu : u.isEmpty = false)
    (hrow : authKeyRowMatch line = some (c1, c2, c3, c4))
    (hpref : (hasPref (str "ssh-") (trimSpace c1) ||
      hasPref (str "ecdsa-") (trimSpace c1)) = true) :
    authStep line ⟨d, ihk, u⟩ =
      ⟨{ d with
          sshKeyMap := updateMap d.sshKeyMap u
            ⟨trimSpace c1, trimSpace c2,
              if trimSpace c3 = str "-" then [] else trimSpace c3, trimSpace c4⟩ },
        ihk, []⟩ := by
  unfold authStep
  rw [authKeyRowMatch_noUser hrow]
  dsimp only
  simp only [hu, Bool.false_eq_true, if_false, authKeyRowMatch_noBorder hrow, hrow]
  rw [if_pos hpref]

/-- The non-committing branch: a row whose key type column lacks the prefix
leaves the state unchanged. -/
theorem authStep_noCommit (line : Line) (d : CloudInitData) (ihk : Bool) (u : Line)
    {c1 c2 c3 c4 : Line}
    (hrow : authKeyRowMatch line = some (c1, c2, c3, c4))
    (hpref : (hasPref (str "ssh-") (trimSpace c1) ||
      hasPref (str "ecdsa-") (trimSpace c1)) = false) :
    authStep line ⟨d, ihk, u⟩ = ⟨d, ihk, u⟩ := by
  unfold authStep
  rw [authKeyRowMatch_noUser hrow]
  dsimp only
  cases hu : (u : Line).isEmpty
  · simp only [Bool.false_eq_true, if_false, authKeyRowMatch_noBorder hrow, hrow]
    rw [if_neg (by simp [hpref])]
  · rfl

theorem authStep_sshKeyMap_noRow (line : Line) (s : ParseState)
    (h : authKeyRowMatch line = none) :
    (authStep line s).data.sshKeyMap = s.data.sshKeyMap := by
  unfold authStep
  split
  · rfl
  · split
    · rfl
    · split
      · rfl
      · rw [h]

theorem processLine_sshKeyMap_noRow (s : ParseState) (line : Line)
    (h : authKeyRowMatch line = none) :
    (processLine s line).data.sshKeyMap = s.data.sshKeyMap := by
  unfold processLine
  dsimp only
  split
  · rw [hashStep_sshKeyMap, ipStep_sshKeyMap, ipStep_sshKeyMap, hostnameStep_sshKeyMap]
  split
  · rw [hashStep_sshKeyMap, ipStep_sshKeyMap, ipStep_sshKeyMap, hostnameStep_sshKeyMap]
  · rw [authStep_sshKeyMap_noRow _ _ h]
    dsimp only
    split
    · rw [hostKeyStep_sshKeyMap, hashStep_sshKeyMap, ipStep_sshKeyMap, ipStep_sshKeyMap,
        hostnameStep_sshKeyMap]
    · rw [hashStep_sshKeyMap, ipStep_sshKeyMap, ipStep_sshKeyMap, hostnameStep_sshKeyMap]

/-- The data value built by the unconditional stages and the optional host key
stage keeps the authorized-key map of the incoming state. -/
theorem dataSteps_sshKeyMap (s : ParseState) (line : Line) :
    (if s.inHostKeys = true then
        hostKeyStep line (hashStep line (ipStep (ipv6Match line)
          (ipStep (ipv4Match line) (hostnameStep line s.data))))
      else hashStep line (ipStep (ipv6Match line)
          (ipStep (ipv4Match line) (hostnameStep line s.data)))).sshKeyMap
      = s.data.sshKeyMap := by
  split
  · rw [hostKeyStep_sshKeyMap, hashStep_sshKeyMap, ipStep_sshKeyMap, ipStep_sshKeyMap,
      hostnameStep_sshKeyMap]
  · rw [hashStep_sshKeyMap, ipStep_sshKeyMap, ipStep_sshKeyMap, hostnameStep_sshKeyMap]

/-- Commit, lifted to the whole loop body (on a line without block markers). -/
theorem processLine_commit (s : ParseState) (line : Line) {c1 c2 c3 c4 : Line}
    (hb : containsSub beginMarker line = false)
    (he : containsSub endMarker line = false)
    (hu : s.currentAuthUser.isEmpty = false)
    (hrow : authKeyRowMatch line = some (c1, c2, c3, c4))
    (hpref : (hasPref (str "ssh-") (trimSpace c1) ||
      hasPref (str "ecdsa-") (trimSpace c1)) = true) :
    (processLine s line).data.sshKeyMap =
      updateMap s.data.sshKeyMap s.currentAuthUser
        ⟨trimSpace c1, trimSpace c2,
          if trimSpace c3 = str "-" then [] else trimSpace c3, trimSpace c4⟩ ∧
    (processLine s line).currentAuthUser = [] := by
  unfold processLine
  dsimp only
  simp only [hb, he, Bool.false_eq_true, if_false]
  rw [authStep_commit line _ _ _ hu hrow hpref]
  constructor
  · dsimp only
    rw [dataSteps_sshKeyMap]
  · rfl

/-- A non-qualifying row, lifted to the whole loop body. -/
theorem processLine_noCommit (s : ParseState) (line : Line) {c1 c2 c3 c4 : Line}
    (hb : containsSub beginMarker line = false)
    (he : containsSub endMarker line = false)
    (hrow : authKeyRowMatch line = some (c1, c2, c3, c4))
    (hpref : (hasPref (str "ssh-") (trimSpace c1) ||
      hasPref (str "ecdsa-") (trimSpace c1)) = false) :
    (processLine s line).data.sshKeyMap = s.data.sshKeyMap ∧
    (processLine s line).currentAuthUser = s.currentAuthUser := by
  unfold processLine
  dsimp only
  simp only [hb, he, Bool.false_eq_true, if_false]
  rw [authStep_noCommit line _ _ _ hrow hpref]
  constructor
  · dsimp only
    rw [dataSteps_sshKeyMap]
  · rfl

/-! ### More per-line and per-fold frame lemmas -/

theorem hostKeyStep_Hostname_noneKey (line : Line) (d : CloudInitData)
    (h : sshKeyMatch (trimSpace line) = none) :
    (hostKeyStep line d).Hostname = d.Hostname := by
  unfold hostKeyStep
  dsimp only
  split
  · split
    · rw [h]
    · rfl
  · rfl

theorem processLine_Hostname_none (s : ParseState) (line : Line)
    (h1 : hostnameMatch line = none) (h2 : sshKeyMatch (trimSpace line) = none) :
    (processLine s line).data.Hostname = s.data.Hostname := by
  unfold processLine
  dsimp only
  rw [hostnameStep_none line s.data h1]
  split
  · rw [hashStep_Hostname, ipStep_Hostname, ipStep_Hostname]
  split
  · rw [hashStep_Hostname, ipStep_Hostname, ipStep_Hostname]
  · rw [authStep_Hostname]
    dsimp only
    split
    · rw [hostKeyStep_Hostname_noneKey _ _ h2, hashStep_Hostname, ipStep_Hostname,
        ipStep_Hostname]
    · rw [hashStep_Hostname, ipStep_Hostname, ipStep_Hostname]

theorem processLines_Hostname_none (lines : List Line) : ∀ s : ParseState,
    (∀ l ∈ lines, hostnameMatch l = none ∧ sshKeyMatch (trimSpace l) = none) →
    (processLines s lines).data.Hostname = s.data.Hostname := by
  induction lines with
  | nil => intro s _; rfl
  | cons l t ih =>
    intro s h
    obtain ⟨h1, h2⟩ := h l (by simp)
    rw [processLines_cons, ih _ (fun x hx => h x (by simp [hx])),
      processLine_Hostname_none s l h1 h2]

theorem processLines_sshKeyMap_noRow (lines : List Line) : ∀ s : ParseState,
    (∀ l ∈ lines, authKeyRowMatch l = none) →
    (processLines s lines).data.sshKeyMap = s.data.sshKeyMap := by
  induction lines with
  | nil => intro s _; rfl
  | cons l t ih =>
    intro s h
    rw [processLines_cons, ih _ (fun x hx => h x (by simp [hx])),
      processLine_sshKeyMap_noRow s l (h l (by simp))]

theorem ipStream_nil (lines : List Line)
    (h : ∀ l ∈ lines, ipv4Match l = none ∧ ipv6Match l = none) :
    ipStream lines = [] := by
  induction lines with
  | nil => rfl
  | cons l t ih =>
    obtain ⟨h4, h6⟩ := h l (by simp)
    unfold ipStream
    rw [List.flatMap_cons, h4, h6]
    have ht : ipStream t = [] := ih (fun x hx => h x (by simp [hx]))
    unfold ipStream at ht
    simp [ht]

theorem filterMap_hash_nil (lines : List Line)
    (h : ∀ l ∈ lines, hashMatch l = none) :
    lines.filterMap (fun l => (hashMatch l).map mkHash) = [] := by
  induction lines with
  | nil => rfl
  | cons l t ih =>
    rw [List.filterMap_cons, h l (by simp)]
    exact ih (fun x hx => h x (by simp [hx]))

theorem specHostKeys_all_noKey (lines : List Line) : ∀ b : Bool,
    (∀ l ∈ lines, (hasPref (str "ssh-") (trimSpace l) ||
      hasPref (str "ecdsa-") (trimSpace l)) = false) →
    specHostKeys b lines = [] := by
  induction lines with
  | nil => intro b _; rfl
  | cons l t ih =>
    intro b h
    have hl := h l (by simp)
    have hrest : ∀ x ∈ t, (hasPref (str "ssh-") (trimSpace x) ||
        hasPref (str "ecdsa-") (trimSpace x)) = false :=
      fun x hx => h x (by simp [hx])
    simp only [specHostKeys]
    split
    · exact ih true hrest
    · split
      · exact ih false hrest
      · rw [if_neg (by simp [hl]), ih b hrest]

theorem specHostKeys_true_noMarkers (lines : List Line) :
    (∀ l ∈ lines, containsSub beginMarker l = false ∧ containsSub endMarker l = false) →
    specHostKeys true lines =
      (lines.filter (fun l => hasPref (str "ssh-") (trimSpace l) ||
        hasPref (str "ecdsa-") (trimSpace l))).map trimSpace := by
  induction lines with
  | nil => intro _; rfl
  | cons l t ih =>
    intro h
    obtain ⟨hb, he⟩ := h l (by simp)
    have ihx := ih (fun x hx => h x (by simp [hx]))
    simp only [specHostKeys, hb, he, Bool.false_eq_true, if_false, Bool.true_and,
      List.filter_cons]
    by_cases hp : (hasPref (str "ssh-") (trimSpace l) ||
        hasPref (str "ecdsa-") (trimSpace l)) = true
    · simp [hp, ihx]
    · simp [hp, ihx]

/-! ### Inversions of the unanchored searches -/

theorem findAcross_some {α : Type} {f : Line → Option α} {a : α} :
    ∀ {l : Line}, findAcross f l = some a → ∃ t : Line, f t = some a := by
  intro l
  induction l with
  | nil => intro h; exact ⟨[], h⟩
  | cons c t ih =>
    intro h
    rw [findAcross] at h
    cases hf : f (c :: t) with
    | none => rw [hf] at h; exact ih h
    | some b => rw [hf] at h; exact ⟨c :: t, hf.trans h⟩

theorem hashFpAt_some {l fp r : Line} (h : hashFpAt l = some (fp, r)) :
    ∃ t : Line, fp = str "SHA256:" ++ t := by
  unfold hashFpAt at h
  simp only [bind, Option.bind_eq_some] at h
  obtain ⟨r0, h0, ⟨t1, r1⟩, h1, ⟨w2, r2⟩, h2, h3⟩ := h
  injection h3 with h4
  injection h4 with hfp _
  exact ⟨t1, hfp.symm⟩

theorem hashAt_fp {l b fp hn kt : Line} (h : hashAt l = some (b, fp, hn, kt)) :
    ∃ t : Line, fp = str "SHA256:" ++ t := by
  unfold hashAt at h
  simp only [bind, Option.bind_eq_some] at h
  obtain ⟨⟨b0, r0⟩, h0, ⟨w1, r1⟩, h1, ⟨fp2, r2⟩, h2, ⟨hn3, kt3⟩, h3, h4⟩ := h
  obtain ⟨t, ht⟩ := hashFpAt_some h2
  injection h4 with h5
  injection h5 with hb hrest
  injection hrest with hfp hrest2
  exact ⟨t, hfp ▸ ht⟩

theorem hashMatch_fp {l b fp hn kt : Line} (h : hashMatch l = some (b, fp, hn, kt)) :
    ∃ t : Line, fp = str "SHA256:" ++ t := by
  obtain ⟨w, hw⟩ := findAcross_some h
  exact hashAt_fp hw

theorem filterMap_replicate_some {α : Type} {f : Line → Option α} {l : Line} {a : α}
    (h : f l = some a) : ∀ n, (List.filterMap f (List.replicate n l)).length = n := by
  intro n
  induction n with
  | zero => rfl
  | succ m ih => simp [List.replicate_succ, List.filterMap_cons, h, ih]

/-! ### Lemmas about the line scanner -/

theorem takeWhile_all {p : List Char → Bool} : ∀ {l : List (List Char)},
    (∀ x ∈ l, p x = true) → l.takeWhile p = l := by
  intro l
  induction l with
  | nil => intro _; rfl
  | cons a t ih =>
    intro h
    rw [List.takeWhile_cons, if_pos (h a (by simp)), ih (fun x hx => h x (by simp [hx]))]

theorem mem_dropFinalEmpty {x : List Char} {segs : List (List Char)}
    (h : x ∈ dropFinalEmpty segs) : x ∈ segs := by
  unfold dropFinalEmpty at h
  split at h
  · exact List.dropLast_subset _ h
  · exact h

theorem splitSegs_append_newline (a : List Char) (hne : ∀ c ∈ a, c ≠ '\n')
    (r : List Char) : splitSegs (a ++ '\n' :: r) = a :: splitSegs r := by
  induction a with
  | nil => simp [splitSegs]
  | cons c t ih =>
    have hc : c ≠ '\n' := hne c (by simp)
    rw [List.cons_append, splitSegs, if_neg hc, ih (fun x hx => hne x (by simp [hx]))]
    rfl

/-! ### The claims -/

/-- C1: `ParseCloudInit` is total — every byte sequence yields a plain result
value, never an error — and a pattern that never matches leaves its field
absent or empty: no hostname evidence gives an empty hostname, no address-row
match an empty address list, no fingerprint match an empty fingerprint list,
no key-prefixed block line an empty raw-key list, and no authorized-key row
an empty user map. -/
theorem C1_total_absence_is_emptiness (content : List Char) :
    ParseCloudInit content = (processLines initState (goLines content)).data ∧
    ((∀ l ∈ goLines content, hostnameMatch l = none ∧ sshKeyMatch (trimSpace l) = none) →
      (ParseCloudInit content).Hostname = []) ∧
    ((∀ l ∈ goLines content, ipv4Match l = none ∧ ipv6Match l = none) →
      (ParseCloudInit content).IPs = []) ∧
    ((∀ l ∈ goLines content, hashMatch l = none) →
      (ParseCloudInit content).HostKeyHashes = []) ∧
    ((∀ l ∈ goLines content, (hasPref (str "ssh-") (trimSpace l) ||
        hasPref (str "ecdsa-") (trimSpace l)) = false) →
      (ParseCloudInit content).HostKeys = []) ∧
    ((∀ l ∈ goLines content, authKeyRowMatch l = none) →
      ∀ u, (ParseCloudInit content).sshKeyMap u = none) := by
  refine ⟨rfl, ?_, ?_, ?_, ?_, ?_⟩
  · intro h
    exact processLines_Hostname_none (goLines content) initState h
  · intro h
    rw [show (ParseCloudInit content).IPs = _ from
      processLines_IPs (goLines content) initState, ipStream_nil _ h]
    rfl
  · intro h
    rw [show (ParseCloudInit content).HostKeyHashes = _ from
      processLines_HostKeyHashes (goLines content) initState, filterMap_hash_nil _ h]
    rfl
  · intro h
    rw [show (ParseCloudInit content).HostKeys = _ from
      processLines_HostKeys_eq (goLines content) initState,
      specHostKeys_all_noKey (goLines content) initState.inHostKeys h]
    rfl
  · intro h u
    rw [show (ParseCloudInit content).sshKeyMap = _ from
      processLines_sshKeyMap_noRow (goLines content) initState h]
    rfl

/-- Witness for C1 on a transcript matching no pattern at all. -/
theorem C1_witness :
    (ParseCloudInit (str "hello world")).Hostname = [] ∧
    (ParseCloudInit (str "hello world")).IPs = [] ∧
    (ParseCloudInit (str "hello world")).HostKeyHashes = [] ∧
    (ParseCloudInit (str "hello world")).HostKeys = [] ∧
    (ParseCloudInit (str "hello world")).sshKeyMap (str "alice") = none :=
  ⟨(C1_total_absence_is_emptiness (str "hello world")).2.1 (by decide),
   (C1_total_absence_is_emptiness (str "hello world")).2.2.1 (by decide),
   (C1_total_absence_is_emptiness (str "hello world")).2.2.2.1 (by decide),
   (C1_total_absence_is_emptiness (str "hello world")).2.2.2.2.1 (by decide),
   (C1_total_absence_is_emptiness (str "hello world")).2.2.2.2.2 (by decide) (str "alice")⟩

/-- C2: the hostname is written at most once — once nonempty it survives every
further line, including key-block lines carrying a different hostname — and
from a state with the hostname still unset and the key block open, a block
line matching the key pattern (and not itself a login prompt or a block
marker) fixes the hostname to its capture for the whole rest of the
transcript. -/
theorem C2_hostname_once_and_fallback :
    (∀ (s : ParseState) (lines : List Line), s.data.Hostname ≠ [] →
      (processLines s lines).data.Hostname = s.data.Hostname) ∧
    (∀ (s : ParseState) (l : Line) (rest : List Line) (kt hn : Line),
      s.data.Hostname = [] → s.inHostKeys = true →
      containsSub beginMarker l = false → containsSub endMarker l = false →
      hostnameMatch l = none → sshKeyMatch (trimSpace l) = some (kt, hn) →
      (processLines s (l :: rest)).data.Hostname = hn) := by
  constructor
  · intro s lines h
    exact processLines_Hostname_ne lines s h
  · intro s l rest kt hn hempty hin hb he hno hm
    have hset := processLine_Hostname_fallback s l hempty hin hb he hno hm
    rw [processLines_cons,
      processLines_Hostname_ne rest _ (by rw [hset]; exact sshKeyMatch_some_ne hm), hset]

/-- Witness for C2: a set hostname survives a later login prompt, and the
key-block fallback recovers the hostname and keeps it against later prompts. -/
theorem C2_witness :
    (processLines ⟨⟨str "already", [], [], [], fun _ => none⟩, false, []⟩
      [str "other login:"]).data.Hostname = str "already" ∧
    (processLines ⟨initData, true, []⟩
      [str "ssh-ed25519 AAAA root@host1", str "host2 login:"]).data.Hostname = str "host1" :=
  ⟨C2_hostname_once_and_fallback.1 ⟨⟨str "already", [], [], [], fun _ => none⟩, false, []⟩
    [str "other login:"] (by decide),
   C2_hostname_once_and_fallback.2 ⟨initData, true, []⟩ (str "ssh-ed25519 AAAA root@host1")
    [str "host2 login:"] (str "ssh-ed25519") (str "host1")
    rfl rfl (by decide) (by decide) (by decide) (by decide)⟩

/-- C3: the fingerprint list is exactly the stream of per-line matches of the
hash pattern, each match appending one record built from the four captures
with the algorithm label `bitLength ++ " bits"`; fingerprints always carry
the literal `SHA256:` prefix; duplicate lines append again, so a transcript
of n copies of a matching line yields n entries; and the documented example
line yields the documented entry. -/
theorem C3_fingerprint_append_from_captures :
    (∀ lines : List Line,
      (processLines initState lines).data.HostKeyHashes =
        lines.filterMap (fun l => (hashMatch l).map mkHash)) ∧
    (∀ l b fp hn kt : Line, hashMatch l = some (b, fp, hn, kt) →
      mkHash (b, fp, hn, kt) = ⟨kt, fp, hn, b ++ str " bits"⟩ ∧
      ∃ t : Line, fp = str "SHA256:" ++ t) ∧
    (hashMatch (str "256 SHA256:abcd1234 root@myhost (ED25519)") =
      some (str "256", str "SHA256:abcd1234", str "myhost", str "ED25519")) ∧
    (∀ (n : Nat) (l b fp hn kt : Line), hashMatch l = some (b, fp, hn, kt) →
      ((processLines initState (List.replicate n l)).data.HostKeyHashes).length = n) ∧
    ((ParseCloudInit (str "256 SHA256:abcd1234 root@myhost (ED25519)")).HostKeyHashes =
      [⟨str "ED25519", str "SHA256:abcd1234", str "myhost", str "256 bits"⟩]) := by
  refine ⟨?_, ?_, by decide, ?_, by decide⟩
  · intro lines
    rw [processLines_HostKeyHashes lines initState]
    rfl
  · intro l b fp hn kt h
    exact ⟨rfl, hashMatch_fp h⟩
  · intro n l b fp hn kt h
    rw [processLines_HostKeyHashes _ initState]
    simpa [initState, initData] using @filterMap_replicate_some HostKeyHash
      (fun l2 => (hashMatch l2).map mkHash) l (mkHash (b, fp, hn, kt)) (by simp [h]) n

/-- Witness for C3: two copies of the example line yield two entries. -/
theorem C3_witness :
    ((processLines initState (List.replicate 2
      (str "256 SHA256:abcd1234 root@myhost (ED25519)"))).data.HostKeyHashes).length = 2 ∧
    (∃ t : Line, str "SHA256:abcd1234" = str "SHA256:" ++ t) :=
  ⟨C3_fingerprint_append_from_captures.2.2.2.1 2
    (str "256 SHA256:abcd1234 root@myhost (ED25519)")
    (str "256") (str "SHA256:abcd1234") (str "myhost") (str "ED25519") (by decide),
   (C3_fingerprint_append_from_captures.2.1
    (str "256 SHA256:abcd1234 root@myhost (ED25519)")
    (str "256") (str "SHA256:abcd1234") (str "myhost") (str "ED25519") (by decide)).2⟩

/-- C4: the address list is the first-appearance deduplication of the stream
of address captures — insertion order is order of first appearance — hence it
never holds duplicates under exact string equality, and a transcript with two
copies of the same address row yields the address once. -/
theorem C4_addresses_first_appearance_nodup :
    (∀ content : List Char,
      (ParseCloudInit content).IPs = specFirstDedup (ipStream (goLines content))) ∧
    (∀ content : List Char, (ParseCloudInit content).IPs.Nodup) ∧
    (ParseCloudInit (str "| eth0 | True | 10.0.0.5 |\n| eth0 | True | 10.0.0.5 |")).IPs
      = [str "10.0.0.5"] := by
  refine ⟨?_, ?_, by decide⟩
  · intro content
    rw [show (ParseCloudInit content).IPs = _ from
      processLines_IPs (goLines content) initState]
    rfl
  · intro content
    rw [show (ParseCloudInit content).IPs = _ from
      processLines_IPs (goLines content) initState]
    exact foldl_insertIfAbsent_nodup _ _ List.nodup_nil

/-- C5: the raw host key list is exactly the block-scanner projection of the
line sequence — a trimmed `ssh-`/`ecdsa-` line is kept when and only when the
block is open, marker lines themselves are discarded — so a key-shaped line
outside the markers is never captured, as the two concrete transcripts show. -/
theorem C5_raw_host_keys_block_discipline :
    (∀ (lines : List Line) (s : ParseState),
      (processLines s lines).data.HostKeys =
        s.data.HostKeys ++ specHostKeys s.inHostKeys lines) ∧
    (ParseCloudInit (str "ssh-rsa AAA root@x")).HostKeys = [] ∧
    (ParseCloudInit (str "-----BEGIN SSH HOST KEY KEYS-----\nssh-rsa AAA root@x\n-----END SSH HOST KEY KEYS-----\nssh-rsa BBB root@y")).HostKeys
      = [str "ssh-rsa AAA root@x"] :=
  ⟨processLines_HostKeys_eq, by decide, by decide⟩

/-- C6: with a pending user armed, a four-column row line (not a marker, not a
border) whose trimmed key type column carries an `ssh-` or `ecdsa-` prefix
commits the entry for that user — all columns trimmed, a lone dash in the
options column normalized to the empty string, any other options string kept
— and clears the pending user; a row without the prefix changes nothing and
leaves the user armed. -/
theorem C6_authorized_row_commit_and_options (s : ParseState)
    (line u c1 c2 c3 c4 : Line)
    (huser : s.currentAuthUser = u) (hne : u ≠ [])
    (hb : containsSub beginMarker line = false)
    (he : containsSub endMarker line = false)
    (hrow : authKeyRowMatch line = some (c1, c2, c3, c4)) :
    ((hasPref (str "ssh-") (trimSpace c1) || hasPref (str "ecdsa-") (trimSpace c1)) = true →
      (processLine s line).data.sshKeyMap u =
        some ⟨trimSpace c1, trimSpace c2,
          if trimSpace c3 = str "-" then [] else trimSpace c3, trimSpace c4⟩ ∧
      (processLine s line).currentAuthUser = []) ∧
    ((hasPref (str "ssh-") (trimSpace c1) || hasPref (str "ecdsa-") (trimSpace c1)) = false →
      (processLine s line).data.sshKeyMap = s.data.sshKeyMap ∧
      (processLine s line).currentAuthUser = u) := by
  have hu : s.currentAuthUser.isEmpty = false := by
    rw [huser]
    cases hEq : u.isEmpty
    · rfl
    · exact absurd (isEmpty_iff_nil.1 hEq) hne
  constructor
  · intro hpref
    obtain ⟨hm, hc⟩ := processLine_commit s line hb he hu hrow hpref
    refine ⟨?_, hc⟩
    rw [hm, huser, updateMap_same]
  · intro hpref
    obtain ⟨hm, hc⟩ := processLine_noCommit s line hb he hrow hpref
    exact ⟨hm, by rw [hc, huser]⟩

/-- Witness for C6: a dash-options row commits with empty options and
disarms; a header-like row commits nothing and stays armed. -/
theorem C6_witness :
    ((processLine ⟨initData, false, str "alice"⟩
        (str "ci-info: | ssh-rsa | SHA256:aaa | - | alice@k |")).data.sshKeyMap (str "alice") =
      some ⟨str "ssh-rsa", str "SHA256:aaa", [], str "alice@k"⟩ ∧
     (processLine ⟨initData, false, str "alice"⟩
        (str "ci-info: | ssh-rsa | SHA256:aaa | - | alice@k |")).currentAuthUser = []) ∧
    ((processLine ⟨initData, false, str "bob"⟩
        (str "ci-info: | keytype | fingerprint | options | comment |")).data.sshKeyMap =
      (⟨initData, false, str "bob"⟩ : ParseState).data.sshKeyMap ∧
     (processLine ⟨initData, false, str "bob"⟩
        (str "ci-info: | keytype | fingerprint | options | comment |")).currentAuthUser =
      str "bob") :=
  ⟨(C6_authorized_row_commit_and_options ⟨initData, false, str "alice"⟩
      (str "ci-info: | ssh-rsa | SHA256:aaa | - | alice@k |") (str "alice")
      (str "ssh-rsa") (str "SHA256:aaa") (str "-") (str "alice@k")
      rfl (by decide) (by decide) (by decide) (by decide)).1 (by decide),
   (C6_authorized_row_commit_and_options ⟨initData, false, str "bob"⟩
      (str "ci-info: | keytype | fingerprint | options | comment |") (str "bob")
      (str "keytype") (str "fingerprint") (str "options") (str "comment")
      rfl (by decide) (by decide) (by decide) (by decide)).2 (by decide)⟩

/-- C7: a committed entry lands under exactly the pending username — lookups
for every other username are untouched — and a commit under the same username
replaces whatever entry that username had; on the concrete two-user
transcript with a repeated marker for the first user, the first user holds
the later entry and the second user holds its own. -/
theorem C7_map_per_user_last_wins (s : ParseState)
    (line u c1 c2 c3 c4 : Line)
    (huser : s.currentAuthUser = u) (hne : u ≠ [])
    (hb : containsSub beginMarker line = false)
    (he : containsSub endMarker line = false)
    (hrow : authKeyRowMatch line = some (c1, c2, c3, c4))
    (hpref : (hasPref (str "ssh-") (trimSpace c1) ||
      hasPref (str "ecdsa-") (trimSpace c1)) = true) :
    ((processLine s line).data.sshKeyMap u =
      some ⟨trimSpace c1, trimSpace c2,
        if trimSpace c3 = str "-" then [] else trimSpace c3, trimSpace c4⟩) ∧
    (∀ u' : Line, u' ≠ u →
      (processLine s line).data.sshKeyMap u' = s.data.sshKeyMap u') ∧
    ((ParseCloudInit multiUserTranscript).sshKeyMap (str "alice") =
      some ⟨str "ssh-ed25519", str "SHA256:ccc", [], str "alice@k2"⟩) ∧
    ((ParseCloudInit multiUserTranscript).sshKeyMap (str "bob") =
      some ⟨str "ecdsa-sha2", str "SHA256:bbb", str "opt", str "bob@k"⟩) := by
  have hu : s.currentAuthUser.isEmpty = false := by
    rw [huser]
    cases hEq : u.isEmpty
    · rfl
    · exact absurd (isEmpty_iff_nil.1 hEq) hne
  obtain ⟨hm, _⟩ := processLine_commit s line hb he hu hrow hpref
  refine ⟨?_, ?_, by decide, by decide⟩
  · rw [hm, huser, updateMap_same]
  · intro u' hu'
    rw [hm, huser, updateMap_other _ _ _ _ hu']

/-- Witness for C7: after a commit for one user, lookups for another user are
still absent. -/
theorem C7_witness :
    (processLine ⟨initData, false, str "alice"⟩
      (str "ci-info: | ssh-rsa | SHA256:aaa | - | alice@k |")).data.sshKeyMap (str "bob") =
      none :=
  (C7_map_per_user_last_wins ⟨initData, false, str "alice"⟩
    (str "ci-info: | ssh-rsa | SHA256:aaa | - | alice@k |") (str "alice")
    (str "ssh-rsa") (str "SHA256:aaa") (str "-") (str "alice@k")
    rfl (by decide) (by decide) (by decide) (by decide) (by decide)).2.1
    (str "bob") (by decide)

/-- C10: once the block is open, if no later line carries a BEGIN or END
marker the open state persists to the end of the input, and every remaining
line whose trimmed content starts with `ssh-` or `ecdsa-` is appended,
trimmed, exactly as in a properly closed block. -/
theorem C10_truncated_block_persists (rest : List Line) (s : ParseState)
    (hin : s.inHostKeys = true)
    (hmk : ∀ l ∈ rest, containsSub beginMarker l = false ∧ containsSub endMarker l = false) :
    (processLines s rest).data.HostKeys =
      s.data.HostKeys ++ (rest.filter (fun l => hasPref (str "ssh-") (trimSpace l) ||
        hasPref (str "ecdsa-") (trimSpace l))).map trimSpace := by
  rw [processLines_HostKeys_eq rest s, hin, specHostKeys_true_noMarkers rest hmk]

/-- Witness for C10 on an unterminated block with an interleaved junk line. -/
theorem C10_witness :
    (processLines ⟨initData, true, []⟩
      [str "ssh-aaa K1 root@x", str "junk", str "ecdsa-bbb K2"]).data.HostKeys =
      [str "ssh-aaa K1 root@x", str "ecdsa-bbb K2"] := by
  rw [C10_truncated_block_persists _ _ rfl (by decide)]
  decide

/-! ### Claims about line splitting and the hostname pattern -/

theorem dropWhile_append_all {p : Char → Bool} : ∀ {a : Line},
    (∀ c ∈ a, p c = true) → ∀ b : Line, (a ++ b).dropWhile p = b.dropWhile p := by
  intro a
  induction a with
  | nil => intro _ b; rfl
  | cons x t ih =>
    intro h b
    rw [List.cons_append, List.dropWhile_cons, if_pos (h x (by simp)),
      ih (fun c hc => h c (by simp [hc])) b]

theorem takeWhile_append_all {p : Char → Bool} : ∀ {a : Line},
    (∀ c ∈ a, p c = true) → ∀ b : Line, (a ++ b).takeWhile p = a ++ b.takeWhile p := by
  intro a
  induction a with
  | nil => intro _ b; rfl
  | cons x t ih =>
    intro h b
    rw [List.cons_append, List.takeWhile_cons, if_pos (h x (by simp)),
      ih (fun c hc => h c (by simp [hc])) b, List.cons_append]

theorem dropWhile_cons_neg {p : Char → Bool} {x : Char} (h : p x = false) (t : Line) :
    (x :: t).dropWhile p = x :: t := by
  rw [List.dropWhile_cons, if_neg (by simp [h])]

theorem takeWhile_cons_neg {p : Char → Bool} {x : Char} (h : p x = false) (t : Line) :
    (x :: t).takeWhile p = [] := by
  rw [List.takeWhile_cons, if_neg (by simp [h])]

/-- C8 counterexample: a transcript whose first line is 65536 bytes long has
two newline-separated lines, yet the scanner delivers none of them — the
too-long first line stops the scan, silently dropping the following
well-formed login-prompt line, which on its own yields the hostname
`myhost`. -/
theorem C8_counterexample :
    dropFinalEmpty (splitSegs cBig) = [bigLine, str "myhost login:"] ∧
    goLines cBig = [] ∧
    (ParseCloudInit (str "myhost login:")).Hostname = str "myhost" := by
  have h1 : splitSegs cBig = bigLine :: splitSegs (str "myhost login:") := by
    unfold cBig
    exact splitSegs_append_newline bigLine
      (fun c hc => by rw [List.eq_of_mem_replicate hc]; decide) _
  have h2 : splitSegs (str "myhost login:") = [str "myhost login:"] := by decide
  have hdrop : dropFinalEmpty (splitSegs cBig) = [bigLine, str "myhost login:"] := by
    rw [h1, h2]
    rfl
  refine ⟨hdrop, ?_, by decide⟩
  unfold goLines
  rw [hdrop]
  have hlen : bigLine.length = 65536 := List.length_replicate 65536 'A'
  rw [List.takeWhile_cons, if_neg (by rw [hlen]; decide)]
  rfl

/-- C8 (amended): the input is split on newline; when every newline-separated
segment is shorter than the scanner's 64 KiB token limit, every line of the
input is delivered to the scanning pass in order (one trailing carriage
return stripped per line, no token for the text after a final newline).  A
segment of 65536 bytes or more stops the scan at that segment, dropping it
and every later line, as the counterexample shows. -/
theorem C8_amended_all_short_lines_processed (content : List Char)
    (h : ∀ seg ∈ splitSegs content, seg.length < maxScanTokenSize) :
    goLines content = (dropFinalEmpty (splitSegs content)).map dropCR := by
  unfold goLines
  rw [takeWhile_all (fun x hx => decide_eq_true (h x (mem_dropFinalEmpty hx)))]

/-- Witness for the amended C8 on a short two-line input. -/
theorem C8_witness : goLines (str "a\r\nb\n") = [str "a", str "b"] := by
  rw [C8_amended_all_short_lines_processed (str "a\r\nb\n") (by decide)]
  decide

/-- C9 counterexample: the hostname pattern is not anchored at line start, so
the line `a b login:` — which has text before the token — IS a
hostname-capture line, capturing `b`. -/
theorem C9_counterexample :
    hostnameMatch (str "a b login:") = some (str "b") ∧
    (ParseCloudInit (str "a b login:")).Hostname = str "b" := by
  constructor
  · decide
  · decide

/-- C9 (amended): the pattern matches any line that ends with a nonempty
non-whitespace token, whitespace, the literal `login:` and optional trailing
whitespace; arbitrary text may precede the token as long as it does not abut
it (it is empty or ends in whitespace), and the captured hostname is that
last token before `login:`. -/
theorem C9_amended_suffix_shape (pre tok gap trail : Line)
    (hpre : pre = [] ∨ ∃ (c : Char) (p0 : Line), pre = p0 ++ [c] ∧ reSpace c = true)
    (htok : tok ≠ []) (htokc : ∀ c ∈ tok, reSpace c = false)
    (hgap : gap ≠ []) (hgapc : ∀ c ∈ gap, reSpace c = true)
    (htrail : ∀ c ∈ trail, reSpace c = true) :
    hostnameMatch (pre ++ tok ++ gap ++ str "login:" ++ trail) = some tok := by
  have hL : (str "login:").reverse = ':' :: str "nigol" := rfl
  obtain ⟨c0, tr, hc0⟩ := List.exists_cons_of_ne_nil
    (show tok.reverse ≠ [] by simpa using htok)
  have hc0s : reSpace c0 = false := by
    refine htokc c0 (List.mem_reverse.1 ?_)
    rw [hc0]
    simp
  have hgr : gap.reverse ≠ [] := by simpa using hgap
  have htr2 : tok.reverse ≠ [] := by simpa using htok
  unfold hostnameMatch
  dsimp only
  have e0 : (pre ++ tok ++ gap ++ str "login:" ++ trail).reverse =
      trail.reverse ++
        ((str "login:").reverse ++ (gap.reverse ++ (tok.reverse ++ pre.reverse))) := by
    simp [List.reverse_append]
  rw [e0, dropWhile_append_all (fun c hc => htrail c (List.mem_reverse.1 hc))]
  rw [hL, List.cons_append, dropWhile_cons_neg rfl, ← List.cons_append, ← hL]
  rw [if_pos (List.isPrefixOf_iff_prefix.2
    ⟨gap.reverse ++ (tok.reverse ++ pre.reverse), rfl⟩)]
  rw [show ((str "login:").reverse ++ (gap.reverse ++ (tok.reverse ++ pre.reverse))).drop 6
      = gap.reverse ++ (tok.reverse ++ pre.reverse) from by
    rw [show (6 : Nat) = ((str "login:").reverse).length from rfl, List.drop_left]]
  have e3 : (gap.reverse ++ (tok.reverse ++ pre.reverse)).takeWhile reSpace =
      gap.reverse := by
    rw [takeWhile_append_all (fun c hc => hgapc c (List.mem_reverse.1 hc)), hc0,
      List.cons_append, takeWhile_cons_neg hc0s, List.append_nil]
  have e4 : (gap.reverse ++ (tok.reverse ++ pre.reverse)).dropWhile reSpace =
      tok.reverse ++ pre.reverse := by
    rw [dropWhile_append_all (fun c hc => hgapc c (List.mem_reverse.1 hc)), hc0,
      List.cons_append, dropWhile_cons_neg hc0s, ← List.cons_append, ← hc0]
  have e5 : (tok.reverse ++ pre.reverse).takeWhile notSpace = tok.reverse := by
    rw [takeWhile_append_all (fun c hc => by
      unfold notSpace
      rw [htokc c (List.mem_reverse.1 hc)]
      rfl)]
    rcases hpre with hnil | ⟨c, p0, hp, hcs⟩
    · rw [hnil]
      simp
    · rw [hp, List.reverse_append]
      simp only [List.reverse_singleton, List.singleton_append]
      rw [takeWhile_cons_neg (by unfold notSpace; rw [hcs]; rfl), List.append_nil]
  rw [e3, if_neg (fun hx => hgr (isEmpty_iff_nil.1 hx)), e4, e5,
    if_neg (fun hx => htr2 (isEmpty_iff_nil.1 hx)), List.reverse_reverse]

/-- Witness for the amended C9 at the counterexample's own line. -/
theorem C9_witness :
    hostnameMatch (str "a " ++ str "b" ++ [' '] ++ str "login:" ++ []) = some (str "b") :=
  C9_amended_suffix_shape (str "a ") (str "b") [' '] []
    (Or.inr ⟨' ', str "a", by decide⟩) (by decide) (by decide) (by decide)
    (by decide) (by decide)

end DttParse
